import Mathlib

/-!
Verification development for the movie-catalog program
(`movie_recommendation_system.py`): a shallow embedding of its catalog
store (CSV load with bootstrap-and-retry and numeric coercion) and of its
query layer (genre enumeration, filters, top-N ranking, preference-based
recommendation, aggregate statistics), together with theorems settling the
specified behaviours.

Modelling conventions:
* Python `float` ratings are modelled as exact rationals (`ℚ`); the decimal
  literals occurring in the program are short enough that ordering and
  equality agree with the binary floats.
* Python's stable `sorted(..., key=..., reverse=True)` is modelled by
  `List.mergeSort` with the corresponding total boolean preorder; both are
  stable sorts, hence extensionally equal.
* `statistics.mean` computes the exact rational mean (the Python library
  routine sums via `Fraction`), and `round(x, 2)` is modelled as exact
  round-half-to-even at two decimal places.
* The filesystem is modelled as an explicit trace of per-attempt
  observations, so that the load/bootstrap/retry loop is a structural
  recursion over the trace.
-/

namespace MovieRec

/-- A fully typed movie record, the state of one catalog entry after a
successful load (`Rating` coerced to a real number, `Year` to an integer). -/
structure Movie where
  title : String
  genre : String
  rating : ℚ
  year : ℤ
  director : String
deriving Repr, DecidableEq

/-- One raw CSV row as produced by the row-reader: all five fields are
strings, exactly as `csv.DictReader` yields them. -/
structure RawMovie where
  title : String
  genre : String
  rating : String
  year : String
  director : String
deriving Repr, DecidableEq

/-- A numeric field of a record mid-load: either still the raw string or
already coerced to its numeric value (the conversion loop mutates records
in place, so a failed load can leave a mixture). -/
inductive NumField (α : Type) where
  | raw (s : String)
  | typed (v : α)
deriving Repr, DecidableEq

/-- A catalog entry as stored in `self.movies`: each numeric field is
either raw or typed, reflecting the in-place coercion loop of
`load_movies`. -/
structure LoadedMovie where
  title : String
  genre : String
  rating : NumField ℚ
  year : NumField ℤ
  director : String
deriving Repr, DecidableEq

/-- A row as first read into `self.movies`, before any coercion. -/
def asRaw (r : RawMovie) : LoadedMovie :=
  ⟨r.title, r.genre, .raw r.rating, .raw r.year, r.director⟩

/-- A fully coerced row (both numeric coercions succeeded). -/
def asTyped (r : RawMovie) (q : ℚ) (y : ℤ) : LoadedMovie :=
  ⟨r.title, r.genre, .typed q, .typed y, r.director⟩

/-- Decimal value of a digit string. -/
def digitsToNat (ds : List Char) : ℕ :=
  ds.foldl (fun acc c => 10 * acc + (c.toNat - 48)) 0

/-- Model of Python `int(s)` on the decimal forms the program uses:
an optional minus sign followed by digits. -/
def parse_int_chars : List Char → Option ℤ
  | [] => none
  | '-' :: ds =>
      if ds ≠ [] ∧ ds.all Char.isDigit then some (-(digitsToNat ds : ℤ)) else none
  | ds =>
      if ds ≠ [] ∧ ds.all Char.isDigit then some (digitsToNat ds : ℤ) else none

/-- Model of Python `int(s)` applied to a field string. -/
def parse_int (s : String) : Option ℤ :=
  parse_int_chars s.toList

/-- Model of Python `float(s)` on an unsigned decimal form: digits with at
most one decimal point. The value `d₁…dₖ.f₁…fₘ` is the exact rational
`d₁…dₖf₁…fₘ / 10^m`. -/
def parse_float_chars (cs : List Char) : Option ℚ :=
  let intPart := cs.takeWhile (fun c => c != '.')
  let rest := cs.dropWhile (fun c => c != '.')
  match rest with
  | [] =>
      if intPart ≠ [] ∧ intPart.all Char.isDigit then
        some (mkRat (digitsToNat intPart) 1)
      else none
  | _ :: frac =>
      if frac.contains '.' then none
      else if (intPart ++ frac) ≠ [] ∧ (intPart ++ frac).all Char.isDigit then
        some (mkRat (digitsToNat (intPart ++ frac)) (10 ^ frac.length))
      else none

/-- Model of Python `float(s)` on the decimal forms the program uses:
an optional minus sign, digits, and at most one decimal point. -/
def parse_float (s : String) : Option ℚ :=
  match s.toList with
  | '-' :: cs => (parse_float_chars cs).map (fun q => -q)
  | cs => parse_float_chars cs

/-- The in-place coercion loop of `load_movies`: walk the freshly read raw
rows; coerce `Rating` with `float` then `Year` with `int`. On the first
coercion failure the loop stops (the exception propagates): the failing row
keeps its raw field(s) and all later rows stay fully raw. Returns the final
record list together with the success flag. -/
def convertRows : List RawMovie → List LoadedMovie × Bool
  | [] => ([], true)
  | r :: rs =>
    match parse_float r.rating with
    | none => (asRaw r :: rs.map asRaw, false)
    | some q =>
      match parse_int r.year with
      | none => (⟨r.title, r.genre, .typed q, .raw r.year, r.director⟩ :: rs.map asRaw, false)
      | some y =>
        let rest := convertRows rs
        (asTyped r q y :: rest.1, rest.2)

/-- What one attempt to open and read the backing file can observe. -/
inductive FileRead where
  | absent
  | ioError
  | content (rows : List RawMovie)
deriving Repr, DecidableEq

/-- Result of `load_movies`, together with the final `self.movies` list.
`hung` is the model artifact for a filesystem trace that ends while the
code would still be retrying. -/
inductive LoadOutcome where
  | ok (catalog : List LoadedMovie)
  | err (catalog : List LoadedMovie)
  | hung
deriving Repr, DecidableEq

/-- Model of `load_movies`, over an explicit trace of filesystem observations: each
attempt consumes one trace entry `(read, createOk)` where `read` is what
opening the file yields and `createOk` is what `create_sample_csv` would
return if invoked at that attempt. On `FileNotFoundError` the code calls
`create_sample_csv` and, when that succeeds, recurses into `load_movies`
again; on any other error it returns failure with `self.movies`
untouched; on a successful read it runs the coercion loop. -/
def load_movies : List (FileRead × Bool) → List LoadedMovie → LoadOutcome
  | [], _ => .hung
  | (read, createOk) :: rest, cat =>
    match read with
    | .ioError => .err cat
    | .content rows =>
        let res := convertRows rows
        if res.2 then .ok res.1 else .err res.1
    | .absent => if createOk then load_movies rest cat else .err cat

/-! ### Query layer -/

/-- Lexicographic comparison of character lists by code point: the order
Python uses to compare strings. -/
def lexLe : List Char → List Char → Bool
  | [], _ => true
  | _ :: _, [] => false
  | c :: cs, d :: ds =>
      if c.toNat < d.toNat then true
      else if d.toNat < c.toNat then false
      else lexLe cs ds

/-- Python's string `<=` (lexicographic by code point). -/
def strLe (a b : String) : Bool :=
  lexLe a.data b.data

/-- Model of `get_unique_genres`: distinct stored genre values (case-sensitive),
sorted ascending (model of `sorted(list(set(...)))`). -/
def get_unique_genres (movies : List Movie) : List String :=
  ((movies.map (fun m => m.genre)).dedup).mergeSort strLe

/-- Model of Python `str.lower()` (character-wise lower-casing; the
program's genre strings are ASCII, where this agrees with Python). -/
def pyLower (s : String) : String :=
  String.mk (s.data.map Char.toLower)

/-- Model of `filter_by_genre`: records whose genre matches case-insensitively
(model of `m['Genre'].lower() == genre.lower()`). -/
def filter_by_genre (movies : List Movie) (genre : String) : List Movie :=
  movies.filter (fun m => pyLower m.genre == pyLower genre)

/-- Model of `filter_by_year_range`: records with `start_year <= Year <= end_year`. -/
def filter_by_year_range (movies : List Movie) (start_year end_year : ℤ) : List Movie :=
  movies.filter (fun m => decide (start_year ≤ m.year ∧ m.year ≤ end_year))

/-- Model of `filter_by_min_rating`: records with `Rating >= min_rating`. -/
def filter_by_min_rating (movies : List Movie) (min_rating : ℚ) : List Movie :=
  movies.filter (fun m => decide (min_rating ≤ m.rating))

/-- The boolean preorder of `sorted(..., key=lambda x: x['Rating'],
reverse=True)`: `a` may come before `b` iff `b.rating ≤ a.rating`. -/
def ratingDescLe (a b : Movie) : Bool :=
  decide (b.rating ≤ a.rating)

/-- Python's stable descending-by-rating sort, modelled by the stable
`List.mergeSort`. -/
def sort_by_rating_desc (movies : List Movie) : List Movie :=
  movies.mergeSort ratingDescLe

/-- The list `get_top_movies` ranks: the whole catalog when the genre
argument is falsy (`None` or the empty string, per `if not genre`),
otherwise the case-insensitive genre matches. -/
def top_pool (movies : List Movie) (genre : Option String) : List Movie :=
  match genre with
  | none => movies
  | some g => if g.isEmpty then movies else filter_by_genre movies g

/-- Model of `get_top_movies(n, genre)`: sort the pool descending by rating
(stable) and take the first `n`. -/
def get_top_movies (movies : List Movie) (n : ℕ) (genre : Option String) : List Movie :=
  (sort_by_rating_desc (top_pool movies genre)).take n

/-- The `preferences` dict of `recommend_movies`: each recognized key is
independently optional (`none` models a missing key). -/
structure Preferences where
  genre : Option String := none
  min_rating : Option ℚ := none
  year_from : Option ℤ := none
  year_to : Option ℤ := none
deriving Repr, DecidableEq

/-- Truthiness of a present string value (`if ... and preferences['genre']`):
the empty string is falsy. -/
def strTruthy : Option String → Bool
  | none => false
  | some s => !s.isEmpty

/-- Truthiness of a present numeric rating value: `0.0` is falsy. -/
def ratTruthy : Option ℚ → Bool
  | none => false
  | some q => decide (q ≠ 0)

/-- Truthiness of a present numeric year value: `0` is falsy. -/
def intTruthy : Option ℤ → Bool
  | none => false
  | some n => decide (n ≠ 0)

/-- The genre step of `recommend_movies`: applied only when the key is
present and its value truthy. -/
def applyGenre (p : Preferences) (movies : List Movie) : List Movie :=
  if strTruthy p.genre then
    movies.filter (fun m => pyLower m.genre == pyLower (p.genre.getD ""))
  else movies

/-- The min-rating step of `recommend_movies`. -/
def applyMinRating (p : Preferences) (movies : List Movie) : List Movie :=
  if ratTruthy p.min_rating then
    movies.filter (fun m => decide (p.min_rating.getD 0 ≤ m.rating))
  else movies

/-- The year-from step of `recommend_movies`. -/
def applyYearFrom (p : Preferences) (movies : List Movie) : List Movie :=
  if intTruthy p.year_from then
    movies.filter (fun m => decide (p.year_from.getD 0 ≤ m.year))
  else movies

/-- The year-to step of `recommend_movies`. -/
def applyYearTo (p : Preferences) (movies : List Movie) : List Movie :=
  if intTruthy p.year_to then
    movies.filter (fun m => decide (m.year ≤ p.year_to.getD 0))
  else movies

/-- Model of `recommend_movies(preferences)`: apply the four conditional filters in
source order, sort descending by rating (stable), return the first 5. -/
def recommend_movies (movies : List Movie) (p : Preferences) : List Movie :=
  (sort_by_rating_desc
    (applyYearTo p (applyYearFrom p (applyMinRating p (applyGenre p movies))))).take 5

/-! ### Statistics -/

/-- Exact arithmetic mean (model of `statistics.mean`, which sums exactly
via `Fraction`). Only ever applied to non-empty lists. -/
def rat_mean (l : List ℚ) : ℚ :=
  l.sum / (l.length : ℚ)

/-- Round a rational to the nearest integer, halves to even (model of
Python's `round`). -/
def round_half_even (q : ℚ) : ℤ :=
  if q - ⌊q⌋ < 1/2 then ⌊q⌋
  else if (1:ℚ)/2 < q - ⌊q⌋ then ⌊q⌋ + 1
  else if ⌊q⌋ % 2 = 0 then ⌊q⌋ else ⌊q⌋ + 1

/-- Model of `round(x, 2)`: round to two decimal places. -/
def round2 (q : ℚ) : ℚ :=
  (round_half_even (q * 100) : ℚ) / 100

/-- Python `max(movies, key=...)`: fold keeping the current best, replaced
only on a strictly greater key — so the first maximal element wins. -/
def py_max_by {α : Type} [LinearOrder α] (key : Movie → α) (x : Movie) (xs : List Movie) : Movie :=
  xs.foldl (fun best m => if key best < key m then m else best) x

/-- Python `min(movies, key=...)`: the first minimal element wins. -/
def py_min_by {α : Type} [LinearOrder α] (key : Movie → α) (x : Movie) (xs : List Movie) : Movie :=
  xs.foldl (fun best m => if key m < key best then m else best) x

/-- Per-genre aggregate of `get_statistics`. -/
structure GenreStat where
  count : ℕ
  avg_rating : ℚ
deriving Repr, DecidableEq

/-- The aggregate record built by `get_statistics`; `genre_statistics`
keeps the insertion order of the Python dict (one entry per unique
genre). -/
structure Stats where
  total_movies : ℕ
  average_rating : ℚ
  highest_rated : Movie
  lowest_rated : Movie
  genre_statistics : List (String × GenreStat)
  oldest_movie : Movie
  newest_movie : Movie
deriving Repr, DecidableEq

/-- The genre-statistics loop of `get_statistics`, over a given list of
genre keys: each genre with a non-empty (case-insensitive) match list gets
its count and rounded mean rating. -/
def genre_stats_over (movies : List Movie) (gs : List String) : List (String × GenreStat) :=
  gs.filterMap (fun g =>
    let gm := filter_by_genre movies g
    if gm.isEmpty then none
    else some (g, ⟨gm.length, round2 (rat_mean (gm.map (fun m => m.rating)))⟩))

/-- The `genre_statistics` mapping: keys are `get_unique_genres`. -/
def genre_stats_list (movies : List Movie) : List (String × GenreStat) :=
  genre_stats_over movies (get_unique_genres movies)

/-- Model of `get_statistics`: fails (the `statistics.mean` of zero elements
raises) exactly on the empty catalog; otherwise all aggregates. -/
def get_statistics : List Movie → Option Stats
  | [] => none
  | x :: xs => some {
      total_movies := (x :: xs).length,
      average_rating := round2 (rat_mean ((x :: xs).map (fun m => m.rating))),
      highest_rated := py_max_by (fun m => m.rating) x xs,
      lowest_rated := py_min_by (fun m => m.rating) x xs,
      genre_statistics := genre_stats_list (x :: xs),
      oldest_movie := py_min_by (fun m => m.year) x xs,
      newest_movie := py_max_by (fun m => m.year) x xs }

/-! ### Concrete data used by witnesses and counterexamples -/

/-- A CSV row whose `Rating` cannot be coerced by `float`. -/
def rowBad : RawMovie :=
  ⟨"A", "Drama", "bad", "1990", "X"⟩

/-- A CSV row that coerces cleanly. -/
def rowGood : RawMovie :=
  ⟨"The Shawshank Redemption", "Drama", "9.3", "1994", "Frank Darabont"⟩

/-- The three top seed records, fully typed: ratings 9.3, 9.2, 9.0. -/
def sample3 : List Movie :=
  [⟨"The Shawshank Redemption", "Drama", mkRat 93 10, 1994, "Frank Darabont"⟩,
   ⟨"The Godfather", "Crime", mkRat 92 10, 1972, "Francis Ford Coppola"⟩,
   ⟨"The Dark Knight", "Action", 9, 2008, "Christopher Nolan"⟩]

/-- A catalog with two genre spellings differing only in letter case. -/
def twoCase : List Movie :=
  [⟨"A", "Drama", 9, 2000, "d1"⟩, ⟨"B", "drama", 7, 2010, "d2"⟩]

/-- A catalog whose single record has a negative rating. -/
def negCat : List Movie :=
  [⟨"N", "Drama", -1, 2000, "dn"⟩]

/-- A catalog with a rating tie between its second and third records. -/
def tieCat : List Movie :=
  [⟨"X", "GA", 9, 2000, "dx"⟩, ⟨"Y", "GB", mkRat 85 10, 2001, "dy"⟩,
   ⟨"Z", "GC", mkRat 85 10, 2002, "dz"⟩]

/-! ### Order lemmas for the string comparison -/

theorem lexLe_total : ∀ a b : List Char, (lexLe a b || lexLe b a) = true
  | [], _ => by simp [lexLe]
  | _ :: _, [] => by simp [lexLe]
  | c :: cs, d :: ds => by
      simp only [lexLe]
      rcases Nat.lt_trichotomy c.toNat d.toNat with h | h | h
      · simp [h]
      · simp [h, Nat.lt_irrefl, lexLe_total cs ds]
      · simp [h, Nat.lt_asymm h]

theorem lexLe_trans : ∀ a b c : List Char,
    lexLe a b = true → lexLe b c = true → lexLe a c = true
  | [], _, _, _, _ => by simp [lexLe]
  | _ :: _, [], _, h, _ => by simp [lexLe] at h
  | _ :: _, _ :: _, [], _, h => by simp [lexLe] at h
  | a :: as, b :: bs, c :: cs, h₁, h₂ => by
      simp only [lexLe] at h₁ h₂ ⊢
      rcases Nat.lt_trichotomy a.toNat b.toNat with hab | hab | hab <;>
        rcases Nat.lt_trichotomy b.toNat c.toNat with hbc | hbc | hbc <;>
        simp_all [Nat.lt_irrefl, Nat.lt_asymm] <;>
        first
          | omega
          | (have hac : a.toNat = c.toNat := by omega
             simp_all [lexLe_trans as bs cs])

theorem strLe_total (a b : String) : (strLe a b || strLe b a) = true :=
  lexLe_total a.data b.data

theorem strLe_trans (a b c : String) :
    strLe a b = true → strLe b c = true → strLe a c = true :=
  lexLe_trans a.data b.data c.data

theorem lexLe_ne_lex : ∀ a b : List Char, lexLe a b = true → a ≠ b →
    List.Lex (fun c d : Char => c < d) a b
  | [], [], _, hne => absurd rfl hne
  | [], _ :: _, _, _ => List.Lex.nil
  | _ :: _, [], h, _ => by simp [lexLe] at h
  | c :: cs, d :: ds, h, hne => by
      simp only [lexLe] at h
      rcases Nat.lt_trichotomy c.toNat d.toNat with hcd | hcd | hcd
      · exact List.Lex.rel (Char.lt_def.mpr (by simpa [UInt32.lt_def, BitVec.lt_def] using hcd))
      · have hc : c = d := Char.eq_of_val_eq (UInt32.toNat.inj hcd)
        subst hc
        have hcs : cs ≠ ds := by
          intro hh
          exact hne (by rw [hh])
        have hrec : lexLe cs ds = true := by
          simpa [Nat.lt_irrefl] using h
        exact List.Lex.cons (lexLe_ne_lex cs ds hrec hcs)
      · simp [Nat.lt_asymm hcd, hcd] at h

/-! ### First-extremum lemmas for the `max`/`min` folds -/

theorem py_max_by_step {α : Type} [LinearOrder α] (key : Movie → α) (x y : Movie)
    (ys : List Movie) :
    py_max_by key x (y :: ys) = py_max_by key (if key x < key y then y else x) ys := rfl

theorem py_min_by_step {α : Type} [LinearOrder α] (key : Movie → α) (x y : Movie)
    (ys : List Movie) :
    py_min_by key x (y :: ys) = py_min_by key (if key y < key x then y else x) ys := rfl

theorem py_max_by_decomp {α : Type} [LinearOrder α] (key : Movie → α) :
    ∀ (xs : List Movie) (x : Movie), ∃ l₁ l₂,
      x :: xs = l₁ ++ py_max_by key x xs :: l₂
      ∧ (∀ m ∈ x :: xs, key m ≤ key (py_max_by key x xs))
      ∧ (∀ a ∈ l₁, key a < key (py_max_by key x xs))
  | [], x => ⟨[], [], rfl, by simp [py_max_by], by simp⟩
  | y :: ys, x => by
      by_cases hxy : key x < key y
      · have hb : py_max_by key x (y :: ys) = py_max_by key y ys := by
          rw [py_max_by_step, if_pos hxy]
        obtain ⟨l₁, l₂, hdec, hub, hlt⟩ := py_max_by_decomp key ys y
        rw [hb]
        refine ⟨x :: l₁, l₂, ?_, ?_, ?_⟩
        · simpa using hdec
        · intro m hm
          rcases List.mem_cons.mp hm with hm | hm
          · subst hm
            exact le_of_lt (lt_of_lt_of_le hxy (hub y (List.mem_cons_self y ys)))
          · exact hub m hm
        · intro a ha
          rcases List.mem_cons.mp ha with ha | ha
          · subst ha
            exact lt_of_lt_of_le hxy (hub y (List.mem_cons_self y ys))
          · exact hlt a ha
      · have hb : py_max_by key x (y :: ys) = py_max_by key x ys := by
          rw [py_max_by_step, if_neg hxy]
        have hyx : key y ≤ key x := not_lt.mp hxy
        obtain ⟨l₁, l₂, hdec, hub, hlt⟩ := py_max_by_decomp key ys x
        rw [hb]
        cases l₁ with
        | nil =>
            obtain ⟨hx, hys⟩ := List.cons.injEq _ _ _ _ ▸ hdec
            refine ⟨[], y :: ys, ?_, ?_, by simp⟩
            · simp [← hx]
            · intro m hm
              rcases List.mem_cons.mp hm with hm | hm
              · rw [hm]
                exact hub x (List.mem_cons_self x ys)
              · rcases List.mem_cons.mp hm with hm | hm
                · subst hm
                  exact le_trans hyx (hub x (List.mem_cons_self x ys))
                · exact hub m (List.mem_cons_of_mem x hm)
        | cons c l₁' =>
            have hx : x = c := by
              have := congrArg (fun l => l.head?) hdec
              simpa using this
            have hys : ys = l₁' ++ py_max_by key x ys :: l₂ := by
              have := congrArg (fun l => l.tail) hdec
              simpa using this
            refine ⟨x :: y :: l₁', l₂, ?_, ?_, ?_⟩
            · simpa using hys
            · intro m hm
              rcases List.mem_cons.mp hm with hm | hm
              · rw [hm]
                exact hub x (List.mem_cons_self x ys)
              · rcases List.mem_cons.mp hm with hm | hm
                · subst hm
                  exact le_trans hyx (hub x (List.mem_cons_self x ys))
                · exact hub m (List.mem_cons_of_mem x hm)
            · intro a ha
              have hcx : key c < key (py_max_by key x ys) :=
                hlt c (List.mem_cons_self c l₁')
              rcases List.mem_cons.mp ha with ha | ha
              · subst ha
                exact hx ▸ hcx
              · rcases List.mem_cons.mp ha with ha | ha
                · subst ha
                  exact lt_of_le_of_lt (le_trans hyx (le_of_eq (congrArg key hx))) hcx
                · exact hlt a (List.mem_cons_of_mem c ha)

theorem py_min_by_decomp {α : Type} [LinearOrder α] (key : Movie → α) :
    ∀ (xs : List Movie) (x : Movie), ∃ l₁ l₂,
      x :: xs = l₁ ++ py_min_by key x xs :: l₂
      ∧ (∀ m ∈ x :: xs, key (py_min_by key x xs) ≤ key m)
      ∧ (∀ a ∈ l₁, key (py_min_by key x xs) < key a)
  | [], x => ⟨[], [], rfl, by simp [py_min_by], by simp⟩
  | y :: ys, x => by
      by_cases hxy : key y < key x
      · have hb : py_min_by key x (y :: ys) = py_min_by key y ys := by
          rw [py_min_by_step, if_pos hxy]
        obtain ⟨l₁, l₂, hdec, hlb, hlt⟩ := py_min_by_decomp key ys y
        rw [hb]
        refine ⟨x :: l₁, l₂, ?_, ?_, ?_⟩
        · simpa using hdec
        · intro m hm
          rcases List.mem_cons.mp hm with hm | hm
          · subst hm
            exact le_of_lt (lt_of_le_of_lt (hlb y (List.mem_cons_self y ys)) hxy)
          · exact hlb m hm
        · intro a ha
          rcases List.mem_cons.mp ha with ha | ha
          · subst ha
            exact lt_of_le_of_lt (hlb y (List.mem_cons_self y ys)) hxy
          · exact hlt a ha
      · have hb : py_min_by key x (y :: ys) = py_min_by key x ys := by
          rw [py_min_by_step, if_neg hxy]
        have hxy' : key x ≤ key y := not_lt.mp hxy
        obtain ⟨l₁, l₂, hdec, hlb, hlt⟩ := py_min_by_decomp key ys x
        rw [hb]
        cases l₁ with
        | nil =>
            obtain ⟨hx, hys⟩ := List.cons.injEq _ _ _ _ ▸ hdec
            refine ⟨[], y :: ys, ?_, ?_, by simp⟩
            · simp [← hx]
            · intro m hm
              rcases List.mem_cons.mp hm with hm | hm
              · rw [hm]
                exact hlb x (List.mem_cons_self x ys)
              · rcases List.mem_cons.mp hm with hm | hm
                · subst hm
                  exact le_trans (hlb x (List.mem_cons_self x ys)) hxy'
                · exact hlb m (List.mem_cons_of_mem x hm)
        | cons c l₁' =>
            have hx : x = c := by
              have := congrArg (fun l => l.head?) hdec
              simpa using this
            have hys : ys = l₁' ++ py_min_by key x ys :: l₂ := by
              have := congrArg (fun l => l.tail) hdec
              simpa using this
            refine ⟨x :: y :: l₁', l₂, ?_, ?_, ?_⟩
            · simpa using hys
            · intro m hm
              rcases List.mem_cons.mp hm with hm | hm
              · rw [hm]
                exact hlb x (List.mem_cons_self x ys)
              · rcases List.mem_cons.mp hm with hm | hm
                · subst hm
                  exact le_trans (hlb x (List.mem_cons_self x ys)) hxy'
                · exact hlb m (List.mem_cons_of_mem x hm)
            · intro a ha
              have hcx : key (py_min_by key x ys) < key c :=
                hlt c (List.mem_cons_self c l₁')
              rcases List.mem_cons.mp ha with ha | ha
              · subst ha
                exact hx ▸ hcx
              · rcases List.mem_cons.mp ha with ha | ha
                · subst ha
                  exact lt_of_lt_of_le hcx (le_trans (le_of_eq (congrArg key hx.symm)) hxy')
                · exact hlt a (List.mem_cons_of_mem c ha)

/-! ### Claim theorems -/

/-- Claim C5: `get_statistics` signals an error (returns no aggregate) exactly on
the empty catalog: it fails there (the mean of zero elements raises) and on
no other catalog state. -/
theorem claim_C5 : ∀ movies : List Movie, get_statistics movies = none ↔ movies = [] := by
  intro movies
  cases movies <;> simp [get_statistics]

/-- Claim C8: `get_unique_genres` is strictly sorted in ascending lexicographic
order (hence has no duplicates) and is, up to order, exactly the set of
distinct stored genre values: a permutation of the deduplicated genre
column. -/
theorem claim_C8 : ∀ movies : List Movie,
    (get_unique_genres movies).Pairwise (fun a b => a < b)
    ∧ List.Perm (get_unique_genres movies) ((movies.map (fun m => m.genre)).dedup) := by
  intro movies
  constructor
  · have hs : (get_unique_genres movies).Pairwise (fun a b => strLe a b = true) :=
      List.sorted_mergeSort (fun a b c => strLe_trans a b c) (fun a b => strLe_total a b) _
    have hnd : (get_unique_genres movies).Nodup :=
      ((List.mergeSort_perm _ _).nodup_iff).mpr (List.nodup_dedup _)
    refine (hs.and hnd).imp ?_
    rintro a b ⟨hle, hne⟩
    exact String.lt_iff_toList_lt.mpr
      (lexLe_ne_lex _ _ hle (fun hdata => hne (String.toList_inj.mp hdata)))
  · exact List.mergeSort_perm _ _

/-- Claim C9: calling `get_top_movies` with the empty string as genre behaves
identically to calling it with no genre: `if not genre` treats the empty
string as absent, so the whole catalog is ranked rather than the records
whose stored genre is empty. -/
theorem claim_C9 : ∀ (movies : List Movie) (n : ℕ),
    get_top_movies movies n (some "") = get_top_movies movies n none := by
  intro movies n
  rfl

/-- Claim C7: on every non-empty catalog, `highest_rated`/`lowest_rated` is the
first record in catalog order attaining the maximum/minimum rating, and
`oldest_movie`/`newest_movie` the first record attaining the minimum/maximum
year: the catalog splits as `l₁ ++ b :: l₂` where `b` is the returned
record, `b` is extremal over the whole catalog, and everything in the
prefix `l₁` is strictly beaten by `b`. -/
theorem claim_C7 : ∀ (x : Movie) (xs : List Movie),
    (∃ b l₁ l₂, (get_statistics (x :: xs)).map (fun st => st.highest_rated) = some b
      ∧ x :: xs = l₁ ++ b :: l₂
      ∧ (x :: xs).all (fun m => decide (m.rating ≤ b.rating)) = true
      ∧ l₁.all (fun a => decide (a.rating < b.rating)) = true)
    ∧ (∃ b l₁ l₂, (get_statistics (x :: xs)).map (fun st => st.lowest_rated) = some b
      ∧ x :: xs = l₁ ++ b :: l₂
      ∧ (x :: xs).all (fun m => decide (b.rating ≤ m.rating)) = true
      ∧ l₁.all (fun a => decide (b.rating < a.rating)) = true)
    ∧ (∃ b l₁ l₂, (get_statistics (x :: xs)).map (fun st => st.oldest_movie) = some b
      ∧ x :: xs = l₁ ++ b :: l₂
      ∧ (x :: xs).all (fun m => decide (b.year ≤ m.year)) = true
      ∧ l₁.all (fun a => decide (b.year < a.year)) = true)
    ∧ (∃ b l₁ l₂, (get_statistics (x :: xs)).map (fun st => st.newest_movie) = some b
      ∧ x :: xs = l₁ ++ b :: l₂
      ∧ (x :: xs).all (fun m => decide (m.year ≤ b.year)) = true
      ∧ l₁.all (fun a => decide (a.year < b.year)) = true) := by
  intro x xs
  refine ⟨?_, ?_, ?_, ?_⟩
  · obtain ⟨l₁, l₂, hdec, hub, hlt⟩ := py_max_by_decomp (fun m => m.rating) xs x
    refine ⟨_, l₁, l₂, rfl, hdec, ?_, ?_⟩
    · rw [List.all_eq_true]
      intro m hm
      exact decide_eq_true (hub m hm)
    · rw [List.all_eq_true]
      intro a ha
      exact decide_eq_true (hlt a ha)
  · obtain ⟨l₁, l₂, hdec, hlb, hlt⟩ := py_min_by_decomp (fun m => m.rating) xs x
    refine ⟨_, l₁, l₂, rfl, hdec, ?_, ?_⟩
    · rw [List.all_eq_true]
      intro m hm
      exact decide_eq_true (hlb m hm)
    · rw [List.all_eq_true]
      intro a ha
      exact decide_eq_true (hlt a ha)
  · obtain ⟨l₁, l₂, hdec, hlb, hlt⟩ := py_min_by_decomp (fun m => m.year) xs x
    refine ⟨_, l₁, l₂, rfl, hdec, ?_, ?_⟩
    · rw [List.all_eq_true]
      intro m hm
      exact decide_eq_true (hlb m hm)
    · rw [List.all_eq_true]
      intro a ha
      exact decide_eq_true (hlt a ha)
  · obtain ⟨l₁, l₂, hdec, hub, hlt⟩ := py_max_by_decomp (fun m => m.year) xs x
    refine ⟨_, l₁, l₂, rfl, hdec, ?_, ?_⟩
    · rw [List.all_eq_true]
      intro m hm
      exact decide_eq_true (hub m hm)
    · rw [List.all_eq_true]
      intro a ha
      exact decide_eq_true (hlt a ha)

theorem ratingDescLe_trans (a b c : Movie) :
    ratingDescLe a b = true → ratingDescLe b c = true → ratingDescLe a c = true := by
  simp only [ratingDescLe, decide_eq_true_iff]
  exact fun h₁ h₂ => le_trans h₂ h₁

theorem ratingDescLe_total (a b : Movie) : (ratingDescLe a b || ratingDescLe b a) = true := by
  simp only [ratingDescLe, Bool.or_eq_true, decide_eq_true_iff]
  exact le_total b.rating a.rating

/-- Stability of the descending-by-rating sort: the records of any one
rating class come out in exactly their original relative order. -/
theorem mergeSort_filter_rating (l : List Movie) (q : ℚ) :
    (l.mergeSort ratingDescLe).filter (fun m => decide (m.rating = q))
      = l.filter (fun m => decide (m.rating = q)) := by
  have hpw : (l.filter (fun m => decide (m.rating = q))).Pairwise
      (fun a b => ratingDescLe a b = true) := by
    apply List.pairwise_of_forall_mem_list
    intro a ha b hb
    have ha' : a.rating = q := by
      simpa using (List.mem_filter.mp ha).2
    have hb' : b.rating = q := by
      simpa using (List.mem_filter.mp hb).2
    simp [ratingDescLe, ha', hb']
  have hsub : List.Sublist (l.filter (fun m => decide (m.rating = q))) (l.mergeSort ratingDescLe) :=
    List.sublist_mergeSort ratingDescLe_trans ratingDescLe_total hpw
      (List.filter_sublist l)
  have hself : (l.filter (fun m => decide (m.rating = q))).filter
      (fun m => decide (m.rating = q)) = l.filter (fun m => decide (m.rating = q)) := by
    apply List.filter_eq_self.mpr
    intro a ha
    exact (List.mem_filter.mp ha).2
  have h1 : List.Sublist (l.filter (fun m => decide (m.rating = q)))
      ((l.mergeSort ratingDescLe).filter (fun m => decide (m.rating = q))) := by
    have := hsub.filter (fun m => decide (m.rating = q))
    rwa [hself] at this
  have h2 : List.Perm ((l.mergeSort ratingDescLe).filter (fun m => decide (m.rating = q)))
      (l.filter (fun m => decide (m.rating = q))) :=
    (List.mergeSort_perm l ratingDescLe).filter _
  exact (h1.eq_of_length h2.length_eq.symm).symm

/-- Claim C4: `get_top_movies n genre` returns `min n |pool|` records from the
scoped pool, sorted descending by rating; within any one rating class the
returned records keep their original catalog order (stable tie-break); and
when the pool has at most `n` records the whole pool is returned (as a
permutation), never an error. -/
theorem claim_C4 : ∀ (movies : List Movie) (n : ℕ) (genre : Option String) (q : ℚ),
    (get_top_movies movies n genre).length = min n (top_pool movies genre).length
    ∧ (get_top_movies movies n genre).Pairwise (fun a b => b.rating ≤ a.rating)
    ∧ List.Sublist ((get_top_movies movies n genre).filter (fun m => decide (m.rating = q)))
        ((top_pool movies genre).filter (fun m => decide (m.rating = q)))
    ∧ ((top_pool movies genre).length ≤ n →
        List.Perm (get_top_movies movies n genre) (top_pool movies genre)) := by
  intro movies n genre q
  refine ⟨?_, ?_, ?_, ?_⟩
  · simp [get_top_movies, sort_by_rating_desc, List.length_take]
  · have hs : ((top_pool movies genre).mergeSort ratingDescLe).Pairwise
        (fun a b => ratingDescLe a b = true) :=
      List.sorted_mergeSort ratingDescLe_trans ratingDescLe_total _
    have := List.Pairwise.sublist (List.take_sublist n _) hs
    exact this.imp (fun h => by simpa [ratingDescLe] using h)
  · have hsub : List.Sublist
        ((get_top_movies movies n genre).filter (fun m => decide (m.rating = q)))
        (((top_pool movies genre).mergeSort ratingDescLe).filter
          (fun m => decide (m.rating = q))) :=
      (List.take_sublist n _).filter _
    rwa [mergeSort_filter_rating] at hsub
  · intro hlen
    have htake : ((top_pool movies genre).mergeSort ratingDescLe).take n
        = (top_pool movies genre).mergeSort ratingDescLe := by
      apply List.take_of_length_le
      simpa using hlen
    show List.Perm (((top_pool movies genre).mergeSort ratingDescLe).take n) _
    rw [htake]
    exact List.mergeSort_perm _ _

/-- Claim C4 witness: on the concrete tie catalog, `get_top_movies 5` returns all
three records, sorted descending, with the tied pair in catalog order. -/
theorem claim_C4_witness :
    (get_top_movies tieCat 5 none).length = min 5 (top_pool tieCat none).length
    ∧ (get_top_movies tieCat 5 none).Pairwise (fun a b => b.rating ≤ a.rating)
    ∧ List.Sublist ((get_top_movies tieCat 5 none).filter (fun m => decide (m.rating = mkRat 85 10)))
        ((top_pool tieCat none).filter (fun m => decide (m.rating = mkRat 85 10)))
    ∧ List.Perm (get_top_movies tieCat 5 none) (top_pool tieCat none) := by
  obtain ⟨h1, h2, h3, h4⟩ := claim_C4 tieCat 5 none (mkRat 85 10)
  exact ⟨h1, h2, h3, h4 (by decide)⟩

/-- Claim C3 counterexample: with `min_rating` present and equal to `0`, the
claimed constraint `rating >= 0` does not hold of the returned records:
`recommend_movies` tests the value's truthiness, so `0` is ignored and a
record with rating `-1` is returned. -/
theorem claim_C3_counterexample :
    recommend_movies negCat { min_rating := some 0 } = [⟨"N", "Drama", -1, 2000, "dn"⟩]
    ∧ ¬ ((0 : ℚ) ≤ (-1 : ℚ)) := by
  constructor
  · simp [recommend_movies, applyGenre, applyMinRating, applyYearFrom, applyYearTo,
      strTruthy, ratTruthy, intTruthy, sort_by_rating_desc, negCat]
  · decide

/-- Claim C3, amended: `recommend_movies` applies each *present-and-truthy*
option as a conjunctive filter over the full catalog — an absent option
imposes no constraint, but so does a present option whose value is falsy
(empty genre string, `min_rating = 0`, `year_from = 0`, `year_to = 0`):
truthiness of the value, not mere presence, decides whether a constraint
applies. The result is the stable descending-by-rating sort of the
conjunctively filtered catalog, capped at 5. -/
theorem claim_C3 : ∀ (movies : List Movie) (p : Preferences),
    recommend_movies movies p
      = (sort_by_rating_desc (movies.filter (fun m =>
          (!strTruthy p.genre || (pyLower m.genre == pyLower (p.genre.getD "")))
          && (!ratTruthy p.min_rating || decide (p.min_rating.getD 0 ≤ m.rating))
          && (!intTruthy p.year_from || decide (p.year_from.getD 0 ≤ m.year))
          && (!intTruthy p.year_to || decide (m.year ≤ p.year_to.getD 0))))).take 5 := by
  intro movies p
  have h : applyYearTo p (applyYearFrom p (applyMinRating p (applyGenre p movies)))
      = movies.filter (fun m =>
          (!strTruthy p.genre || (pyLower m.genre == pyLower (p.genre.getD "")))
          && (!ratTruthy p.min_rating || decide (p.min_rating.getD 0 ≤ m.rating))
          && (!intTruthy p.year_from || decide (p.year_from.getD 0 ≤ m.year))
          && (!intTruthy p.year_to || decide (m.year ≤ p.year_to.getD 0))) := by
    cases hg : strTruthy p.genre <;> cases hr : ratTruthy p.min_rating <;>
      cases hf : intTruthy p.year_from <;> cases ht : intTruthy p.year_to <;>
      simp [applyGenre, applyMinRating, applyYearFrom, applyYearTo, hg, hr, hf, ht,
        List.filter_filter, Bool.and_assoc] <;>
      (try exact List.filter_congr (fun m hm => by ac_rfl))
  rw [recommend_movies, h]

theorem convertRows_spec : ∀ rows : List RawMovie,
    ((convertRows rows).2 = false
      ↔ ∃ r ∈ rows, parse_float r.rating = none ∨ parse_int r.year = none)
    ∧ (convertRows rows).1.length = rows.length
  | [] => by simp [convertRows]
  | r :: rs => by
      obtain ⟨ih1, ih2⟩ := convertRows_spec rs
      rcases hpf : parse_float r.rating with _ | q
      · constructor
        · simp only [convertRows, hpf]
          constructor
          · intro _
            exact ⟨r, List.mem_cons_self r rs, Or.inl hpf⟩
          · intro _
            trivial
        · simp [convertRows, hpf]
      · rcases hpi : parse_int r.year with _ | y
        · constructor
          · simp only [convertRows, hpf, hpi]
            constructor
            · intro _
              exact ⟨r, List.mem_cons_self r rs, Or.inr hpi⟩
            · intro _
              trivial
          · simp [convertRows, hpf, hpi]
        · constructor
          · simp only [convertRows, hpf, hpi]
            rw [ih1]
            simp [List.mem_cons, hpf, hpi]
          · simp [convertRows, hpf, hpi, ih2]

/-- Claim C1 counterexample: a backing file with one row whose rating cannot be
coerced makes `load_movies` report failure, but the catalog is *not* left
empty — the raw row list assigned to `self.movies` before the coercion
loop is retained. -/
theorem claim_C1_counterexample :
    load_movies [(.content [rowBad], true)] [] = .err [asRaw rowBad]
    ∧ [asRaw rowBad] ≠ ([] : List LoadedMovie) := by
  constructor
  · decide
  · decide

/-- Claim C1, amended: if type coercion of rating or year fails for any row,
`load_movies` reports failure, but instead of an empty catalog it retains
the partially-typed record list with exactly one entry per row of the file
(rows before the first failure fully typed, the failing and following rows
partly or fully raw). -/
theorem claim_C1 : ∀ (rows : List RawMovie) (c₀ : List LoadedMovie) (b : Bool),
    load_movies [(.content rows, b)] c₀
      = (if (convertRows rows).2 then LoadOutcome.ok (convertRows rows).1
         else LoadOutcome.err (convertRows rows).1)
    ∧ ((convertRows rows).2 = false
        ↔ ∃ r ∈ rows, parse_float r.rating = none ∨ parse_int r.year = none)
    ∧ (convertRows rows).1.length = rows.length := by
  intro rows c₀ b
  exact ⟨rfl, (convertRows_spec rows).1, (convertRows_spec rows).2⟩

/-- Claim C2 counterexample: on a filesystem trace where the file is missing
twice in a row (each bootstrap reporting success) and present on the third
attempt, `load_movies` retries again after the second missing-file
condition and succeeds — the second missing-file condition is *not*
treated as a hard failure, so the retry count is not bounded by one. -/
theorem claim_C2_counterexample :
    load_movies [(.absent, true), (.absent, true), (.content [rowGood], true)] []
      = .ok [asTyped rowGood (mkRat 93 10) 1994] := by
  decide

/-- Claim C2, amended: when the backing file does not exist, `load_movies`
invokes `create_sample_csv` and, on its success, simply calls itself
again — *every* missing-file condition with a successful bootstrap
triggers a further retry (the retry count is unbounded), and a bootstrap
failure yields a hard load failure with the catalog unchanged. -/
theorem claim_C2 : ∀ (rest : List (FileRead × Bool)) (cat : List LoadedMovie),
    load_movies ((.absent, true) :: rest) cat = load_movies rest cat
    ∧ load_movies ((.absent, false) :: rest) cat = .err cat := by
  intro rest cat
  exact ⟨rfl, rfl⟩

/-- Claim C6: on every non-empty catalog `average_rating` is the arithmetic mean
of all ratings rounded to two decimal places (one fixed rule:
round-half-to-even); in particular on the catalog with ratings
`[9.3, 9.2, 9.0]` it is exactly `9.17`. -/
theorem claim_C6 :
    (∀ (x : Movie) (xs : List Movie),
      (get_statistics (x :: xs)).map (fun st => st.average_rating)
        = some (round2 (rat_mean ((x :: xs).map (fun m => m.rating)))))
    ∧ (get_statistics sample3).map (fun st => st.average_rating) = some (mkRat 917 100) := by
  constructor
  · intro x xs
    rfl
  · show some (round2 (rat_mean (sample3.map (fun m => m.rating)))) = some (mkRat 917 100)
    norm_num [sample3, rat_mean, round2, round_half_even, Rat.mkRat_eq_div]

theorem mem_get_unique_genres {movies : List Movie} {g : String} :
    g ∈ get_unique_genres movies ↔ g ∈ movies.map (fun m => m.genre) := by
  unfold get_unique_genres
  rw [List.mem_mergeSort, List.mem_dedup]

theorem filter_by_genre_ne_nil {movies : List Movie} {g : String}
    (h : g ∈ movies.map (fun m => m.genre)) : filter_by_genre movies g ≠ [] := by
  obtain ⟨m, hm, hg⟩ := List.mem_map.mp h
  apply List.ne_nil_of_mem (a := m)
  apply List.mem_filter.mpr
  exact ⟨hm, by simp [hg]⟩

theorem genre_stats_over_eq_map (movies : List Movie) :
    ∀ gs : List String, (∀ g ∈ gs, filter_by_genre movies g ≠ []) →
      genre_stats_over movies gs = gs.map (fun g =>
        (g, ⟨(filter_by_genre movies g).length,
             round2 (rat_mean ((filter_by_genre movies g).map (fun m => m.rating)))⟩))
  | [], _ => rfl
  | g :: gs, h => by
      have hg : ¬ (filter_by_genre movies g).isEmpty = true := by
        simpa [List.isEmpty_iff] using h g (List.mem_cons_self g gs)
      simp only [genre_stats_over, List.filterMap_cons, List.map_cons]
      rw [if_neg hg]
      have ih := genre_stats_over_eq_map movies gs
        (fun g' hg' => h g' (List.mem_cons_of_mem g hg'))
      simp only [genre_stats_over] at ih
      rw [ih]

/-- Claim C10: the keys of `genre_statistics` are the case-sensitive distinct
genre values (in `get_unique_genres` order), but each key's count and
average are computed over `filter_by_genre`, i.e. over all records whose
genre matches that key case-insensitively. Consequently, on a catalog with
the two spellings `"Drama"` and `"drama"`, both keys appear and carry
identical statistics over the union of both spellings (count 2 each,
summing to 4 > `total_movies` = 2). -/
theorem claim_C10 :
    (∀ (x : Movie) (xs : List Movie),
      (get_statistics (x :: xs)).map (fun st => st.genre_statistics)
        = some ((get_unique_genres (x :: xs)).map (fun g =>
            (g, ⟨(filter_by_genre (x :: xs) g).length,
                 round2 (rat_mean ((filter_by_genre (x :: xs) g).map (fun m => m.rating)))⟩))))
    ∧ (get_statistics twoCase).map (fun st => st.genre_statistics)
        = some [("Drama", ⟨2, 8⟩), ("drama", ⟨2, 8⟩)]
    ∧ (get_statistics twoCase).map (fun st => st.total_movies) = some 2 := by
  have hgen : ∀ (x : Movie) (xs : List Movie),
      (get_statistics (x :: xs)).map (fun st => st.genre_statistics)
        = some ((get_unique_genres (x :: xs)).map (fun g =>
            (g, ⟨(filter_by_genre (x :: xs) g).length,
                 round2 (rat_mean ((filter_by_genre (x :: xs) g).map (fun m => m.rating)))⟩))) := by
    intro x xs
    show some (genre_stats_list (x :: xs)) = _
    rw [genre_stats_list, genre_stats_over_eq_map (x :: xs) (get_unique_genres (x :: xs))
      (fun g hg => filter_by_genre_ne_nil (mem_get_unique_genres.mp hg))]
  refine ⟨hgen, ?_, rfl⟩
  show some (genre_stats_list twoCase) = _
  rw [genre_stats_list, genre_stats_over_eq_map twoCase (get_unique_genres twoCase)
    (fun g hg => filter_by_genre_ne_nil (mem_get_unique_genres.mp hg))]
  have hu : get_unique_genres twoCase = ["Drama", "drama"] := by
    unfold get_unique_genres
    rw [show ((twoCase.map (fun m => m.genre)).dedup) = ["Drama", "drama"] from by decide]
    exact List.mergeSort_of_sorted (by decide)
  rw [hu]
  have hDrama : filter_by_genre twoCase "Drama" = twoCase := by decide
  have hdrama : filter_by_genre twoCase "drama" = twoCase := by decide
  simp only [List.map_cons, List.map_nil, hDrama, hdrama]
  have havg : round2 (rat_mean (twoCase.map (fun m => m.rating))) = 8 := by
    norm_num [twoCase, rat_mean, round2, round_half_even]
  rw [havg]
  rfl

end MovieRec
